import Mathlib

/-!
Verification of the runtime support library in `src/tinyc/runtime/runtime.c`.

The library exposes two entry points to compiled code:

* `tiny_input`  (spec name `read_integer`): prints the prompt `Input: `,
  flushes standard output, then performs a single `scanf("%" PRIi64, &x)`
  on standard input and returns the local `x` (written only when the scan
  converted something).
* `tiny_print`  (spec name `print_integer`): `printf("Output: %" PRIi64 "\n", x)`.

The embedding models the console interaction as an explicit event trace:
each call produces the list of output events it performs, in program order,
and the input stream is an explicit list of characters that the scan
consumes a prefix of.  The `scanf` conversion `%i` (what `PRIi64` selects)
skips leading white space, accepts an optional sign, and then reads an
integer in C base-0 notation: `0x`/`0X` prefixed hexadecimal, `0` prefixed
octal, otherwise decimal.  A failed conversion leaves the destination
untouched, which the model exposes by threading the indeterminate initial
value of the local `x` as an explicit parameter.
-/

namespace TinyFront

/-- C `isspace` in the default locale: space, tab, newline, carriage
return, vertical tab, form feed.  `scanf` skips exactly these before a
`%i` conversion. -/
def isCSpace (c : Char) : Bool :=
  c = ' ' || c = '\t' || c = '\n' || c = '\r' || c = '\x0B' || c = '\x0C'

/-- Hexadecimal digit test, for the `0x` branch of the `%i` conversion. -/
def isHexDig (c : Char) : Bool :=
  c.isDigit || ('a' ≤ c && c ≤ 'f') || ('A' ≤ c && c ≤ 'F')

/-- Octal digit test, for the leading-`0` branch of the `%i` conversion. -/
def isOctDig (c : Char) : Bool :=
  '0' ≤ c && c ≤ '7'

/-- Numeric value of a decimal digit character. -/
def decVal (c : Char) : Nat := c.toNat - 48

/-- Numeric value of a hexadecimal digit character. -/
def hexVal (c : Char) : Nat :=
  if c.isDigit then c.toNat - 48
  else if 'a' ≤ c && c ≤ 'f' then c.toNat - 87
  else c.toNat - 55

/-- Consume a maximal run of digits recognised by `isD`, accumulating
their value in base `base` on top of `acc`; returns the value and the
unconsumed rest of the stream. -/
def takeNum (isD : Char → Bool) (v : Char → Nat) (base : Nat) :
    List Char → Nat → Nat × List Char
  | [], acc => (acc, [])
  | c :: cs, acc =>
    if isD c then takeNum isD v base cs (acc * base + v c) else (acc, c :: cs)

/-- The unsigned part of the `%i` conversion, after white space and an
optional sign have been handled: base detection as in `strtol` with
base 0.  `none` is a matching failure (no digit at the front). -/
def scanUnsigned (cs : List Char) : Option (Nat × List Char) :=
  match cs with
  | [] => none
  | c :: rest =>
    if c = '0' then
      match rest with
      | x :: d :: rest2 =>
        if (x = 'x' || x = 'X') && isHexDig d then
          some (takeNum isHexDig hexVal 16 (d :: rest2) 0)
        else
          some (takeNum isOctDig decVal 8 rest 0)
      | _ => some (takeNum isOctDig decVal 8 rest 0)
    else if c.isDigit then
      some (takeNum Char.isDigit decVal 10 (c :: rest) 0)
    else none

/-- The `%i` conversion on a stream already stripped of leading white
space: optional sign, then `scanUnsigned`.  On failure the stream is
returned as given (the offending character stays unread). -/
def scanfICore (cs : List Char) : Option Int × List Char :=
  match cs with
  | [] => (none, [])
  | c :: rest =>
    if c = '-' then
      match scanUnsigned rest with
      | some (n, r) => (some (-(n : Int)), r)
      | none => (none, c :: rest)
    else if c = '+' then
      match scanUnsigned rest with
      | some (n, r) => (some ((n : Int)), r)
      | none => (none, c :: rest)
    else
      match scanUnsigned (c :: rest) with
      | some (n, r) => (some ((n : Int)), r)
      | none => (none, c :: rest)

/-- `scanf("%" PRIi64, &x)` on the given stream contents: skip white
space, then convert.  Returns the converted value (or `none` on matching
failure / end of stream) and the remaining stream. -/
def scanfI (cs : List Char) : Option Int × List Char :=
  scanfICore (cs.dropWhile isCSpace)

/-- One observable console event performed by a runtime call, in program
order: bytes written to standard output, a flush of standard output, or
the single read attempt on standard input (with whether it converted). -/
inductive Ev where
  | write (s : String)
  | flush
  | readAttempt (matched : Bool)
deriving DecidableEq

/-- Everything one call of `tiny_input` does: its output events in
program order, the value it returns, whether the scan converted, and the
input stream left behind. -/
structure InputResult where
  events : List Ev
  ret : Int
  matched : Bool
  remaining : List Char
deriving DecidableEq

/-- `tiny_input` from `runtime.c`: print the prompt, flush, one `scanf`
attempt, return the local `x`.  `x0` is the indeterminate initial value
of the local `x`; it is returned unchanged when the scan fails, exactly
as the C code returns the never-written local. -/
def tiny_input (stdin : List Char) (x0 : Int) : InputResult :=
  match scanfI stdin with
  | (some v, r) =>
    { events := [Ev.write ("Input: "), Ev.flush, Ev.readAttempt true],
      ret := v, matched := true, remaining := r }
  | (none, r) =>
    { events := [Ev.write ("Input: "), Ev.flush, Ev.readAttempt false],
      ret := x0, matched := false, remaining := r }

/-- Decimal digits of `n`, most significant first, via repeated division
by ten.  Structural recursion on a fuel argument keeps the definition
kernel-reducible; `natDigits` supplies sufficient fuel. -/
def natDigitsGo (fuel : Nat) (n : Nat) : List Char :=
  match fuel with
  | 0 => []
  | fuel + 1 =>
    if n < 10 then [Nat.digitChar n]
    else natDigitsGo fuel (n / 10) ++ [Nat.digitChar (n % 10)]

/-- Decimal digits of `n`, most significant first, no leading zeros
(except `0` itself rendering as `"0"`). -/
def natDigits (n : Nat) : List Char := natDigitsGo (n + 1) n

/-- The rendering `printf "%" PRIi64` produces: minus sign for negative
values, then the decimal digits of the magnitude. -/
def intDec (x : Int) : String :=
  if x < 0 then "-" ++ String.mk (natDigits x.natAbs)
  else String.mk (natDigits x.toNat)

/-- The exact bytes `tiny_print` sends to standard output. -/
def tiny_print_str (x : Int) : String := "Output: " ++ intDec x ++ "\n"

/-- `tiny_print` from `runtime.c`: a single `printf` writing the label,
the decimal rendering of `x`, and a newline — and nothing else. -/
def tiny_print (x : Int) : List Ev := [Ev.write (tiny_print_str x)]

/-- Accumulate a digit string into the number it denotes, base ten. -/
def digitsToNat (ds : List Char) : Nat :=
  ds.foldl (fun a c => a * 10 + (c.toNat - 48)) 0

/-- Modelled from the spec: "standard base-10 parsing" of an integer
literal — an optional leading minus sign followed by a nonempty run of
decimal digits, and nothing else.  Used only to state round-trip and
token-validity properties; the runtime itself never parses with this. -/
def decStrToInt (s : String) : Option Int :=
  match s.data with
  | [] => none
  | c :: cs =>
    if c = '-' then
      if cs ≠ [] ∧ cs.all Char.isDigit then some (-(digitsToNat cs : Int))
      else none
    else
      if (c :: cs).all Char.isDigit then some ((digitsToNat (c :: cs) : Int))
      else none

/-- The whitespace-delimited token at the front of the stream: what the
spec's phrase "the next token" denotes. -/
def nextToken (cs : List Char) : List Char :=
  (cs.dropWhile isCSpace).takeWhile (fun c => !isCSpace c)

/-- Modelled from the spec: "a valid signed decimal integer" — an
optional sign followed by a nonempty run of decimal digits. -/
def isValidSignedDec (cs : List Char) : Bool :=
  match cs with
  | [] => false
  | c :: rest =>
    if c = '-' || c = '+' then !rest.isEmpty && rest.all Char.isDigit
    else (c :: rest).all Char.isDigit

/-- Does the stream start with a digit? -/
def beginsDigit : List Char → Bool
  | [] => false
  | c :: _ => c.isDigit

/-- Does the stream start with an (optionally signed) digit, i.e. with a
nonempty prefix the `%i` conversion can convert? -/
def beginsSignedDigit (cs : List Char) : Bool :=
  match cs with
  | [] => false
  | c :: rest => if c = '-' || c = '+' then beginsDigit rest else c.isDigit

/-- A console state: the unread input stream and the events performed so
far.  The runtime library itself keeps no other state. -/
structure World where
  stdin : List Char
  outEvents : List Ev
deriving DecidableEq

/-- Running one `tiny_print` call against a console state. -/
def runPrint (w : World) (x : Int) : World :=
  { stdin := w.stdin, outEvents := w.outEvents ++ tiny_print x }

/-- Running one `tiny_input` call against a console state; also yields
the returned value. -/
def runInput (w : World) (x0 : Int) : World × Int :=
  let r := tiny_input w.stdin x0
  ({ stdin := r.remaining, outEvents := w.outEvents ++ r.events }, r.ret)

/-- Number of read attempts in a trace. -/
def countReads (es : List Ev) : Nat :=
  es.countP (fun e => match e with | Ev.readAttempt _ => true | _ => false)

/-- Number of prompt writes in a trace. -/
def countPromptWrites (es : List Ev) : Nat :=
  es.countP (fun e => match e with | Ev.write s => s == "Input: " | _ => false)

/-! ## Properties of the decimal renderer -/

theorem natDigitsGo_congr (f1 : Nat) :
    ∀ (f2 n : Nat), n < f1 → n < f2 → natDigitsGo f1 n = natDigitsGo f2 n := by
  induction f1 with
  | zero => intro f2 n h1 _; omega
  | succ f1 ih =>
    intro f2 n h1 h2
    cases f2 with
    | zero => omega
    | succ f2 =>
      simp only [natDigitsGo]
      by_cases h : n < 10
      · simp [h]
      · have hd : n / 10 < n := Nat.div_lt_self (by omega) (by omega)
        simp only [if_neg h]
        rw [ih f2 (n / 10) (by omega) (by omega)]

/-- The unfolding equation of `natDigits`: peel off the last digit. -/
theorem natDigits_step (n : Nat) :
    natDigits n =
      if n < 10 then [Nat.digitChar n]
      else natDigits (n / 10) ++ [Nat.digitChar (n % 10)] := by
  by_cases h : n < 10
  · simp [natDigits, natDigitsGo, h]
  · have hd : n / 10 < n := Nat.div_lt_self (by omega) (by omega)
    have h1 : natDigitsGo (n + 1) n = natDigitsGo n (n / 10) ++ [Nat.digitChar (n % 10)] := by
      simp [natDigitsGo, h]
    rw [if_neg h, natDigits, h1, natDigits,
      natDigitsGo_congr n (n / 10 + 1) (n / 10) (by omega) (by omega)]

theorem natDigits_ne_nil (n : Nat) : natDigits n ≠ [] := by
  rw [natDigits_step]
  by_cases h : n < 10 <;> simp [h]

theorem natDigits_all_digit (n : Nat) : ∀ c ∈ natDigits n, c.isDigit = true := by
  induction n using Nat.strong_induction_on with
  | _ n ih =>
    have hlt : ∀ m, m < 10 → (Nat.digitChar m).isDigit = true := by decide
    rw [natDigits_step]
    by_cases h : n < 10
    · simp [h, hlt n h]
    · have hd : n / 10 < n := Nat.div_lt_self (by omega) (by omega)
      simp only [if_neg h, List.mem_append, List.mem_singleton]
      rintro c (hc | hc)
      · exact ih (n / 10) hd c hc
      · subst hc; exact hlt (n % 10) (by omega)

theorem head?_append_of_ne_nil {α} (l l2 : List α) (h : l ≠ []) :
    (l ++ l2).head? = l.head? := by
  cases l with
  | nil => exact absurd rfl h
  | cons a l => rfl

theorem natDigits_head_ne_zero (n : Nat) (h : 1 ≤ n) :
    (natDigits n).head? ≠ some '0' := by
  induction n using Nat.strong_induction_on with
  | _ n ih =>
    have hne : ∀ m, m < 10 → 1 ≤ m → Nat.digitChar m ≠ '0' := by decide
    rw [natDigits_step]
    by_cases h10 : n < 10
    · simpa [h10] using hne n h10 h
    · have hd : n / 10 < n := Nat.div_lt_self (by omega) (by omega)
      rw [if_neg h10, head?_append_of_ne_nil _ _ (natDigits_ne_nil _)]
      exact ih (n / 10) hd (by omega)

theorem digitsToNat_append_last (l : List Char) (c : Char) :
    digitsToNat (l ++ [c]) = 10 * digitsToNat l + (c.toNat - 48) := by
  simp [digitsToNat, List.foldl_append, Nat.mul_comm]

theorem digitsToNat_natDigits (n : Nat) : digitsToNat (natDigits n) = n := by
  induction n using Nat.strong_induction_on with
  | _ n ih =>
    have hval : ∀ m, m < 10 → (Nat.digitChar m).toNat - 48 = m := by decide
    rw [natDigits_step]
    by_cases h : n < 10
    · simp [h, digitsToNat, hval n h]
    · have hd : n / 10 < n := Nat.div_lt_self (by omega) (by omega)
      rw [if_neg h, digitsToNat_append_last, ih (n / 10) hd, hval (n % 10) (by omega)]
      omega

theorem digit_ne_dash (c : Char) (h : c.isDigit = true) : ¬(c = '-') := by
  intro hc
  subst hc
  simp [Char.isDigit] at h

theorem decStrToInt_intDec (x : Int) : decStrToInt (intDec x) = some x := by
  by_cases hx : x < 0
  · have hm : 1 ≤ x.natAbs := by omega
    have hdata : (intDec x).data = '-' :: natDigits x.natAbs := by
      simp [intDec, if_pos hx]
    simp only [decStrToInt, hdata, reduceIte]
    rw [if_pos ⟨natDigits_ne_nil _, List.all_eq_true.mpr (natDigits_all_digit _)⟩,
      digitsToNat_natDigits]
    congr 1
    omega
  · have hdata : (intDec x).data = natDigits x.toNat := by
      simp [intDec, if_neg hx]
    cases hnd : natDigits x.toNat with
    | nil => exact absurd hnd (natDigits_ne_nil _)
    | cons c cs =>
      have hdig : ∀ d ∈ c :: cs, d.isDigit = true := by
        rw [← hnd]; exact natDigits_all_digit _
      have hdata2 : (intDec x).data = c :: cs := by rw [hdata, hnd]
      simp only [decStrToInt, hdata2]
      rw [if_neg (digit_ne_dash c (hdig c (by simp))),
        if_pos (List.all_eq_true.mpr hdig), ← hnd, digitsToNat_natDigits]
      congr 1
      omega

/-! ## Properties of the scan -/

theorem scanUnsigned_isSome (cs : List Char) :
    (scanUnsigned cs).isSome = beginsDigit cs := by
  cases cs with
  | nil => rfl
  | cons c rest =>
    simp only [scanUnsigned, beginsDigit]
    by_cases h0 : c = '0'
    · subst h0
      rcases rest with _ | ⟨x, _ | ⟨d, rest2⟩⟩
      · simp
      · simp
      · simp only [reduceIte]
        split <;> simp
    · simp only [if_neg h0]
      by_cases hd : c.isDigit <;> simp [hd]

theorem scanfICore_fst_isSome (cs : List Char) :
    (scanfICore cs).1.isSome = beginsSignedDigit cs := by
  cases cs with
  | nil => rfl
  | cons c rest =>
    simp only [scanfICore, beginsSignedDigit]
    by_cases hm : c = '-'
    · subst hm
      have h := scanUnsigned_isSome rest
      rcases hs : scanUnsigned rest with _ | ⟨n, r⟩ <;>
        simp_all [beginsDigit]
    · by_cases hp : c = '+'
      · subst hp
        have h := scanUnsigned_isSome rest
        rcases hs : scanUnsigned rest with _ | ⟨n, r⟩ <;>
          simp_all [beginsDigit]
      · have h := scanUnsigned_isSome (c :: rest)
        simp only [if_neg hm, if_neg hp]
        have hcs : (if c = '-' || c = '+' then beginsDigit rest else c.isDigit) =
            c.isDigit := by
          simp [hm, hp]
        have h2 : beginsDigit (c :: rest) = c.isDigit := rfl
        rw [hcs, ← h2, ← h]
        rcases hs : scanUnsigned (c :: rest) with _ | ⟨n, r⟩ <;> simp_all

theorem tiny_input_matched (s : List Char) (x0 : Int) :
    (tiny_input s x0).matched = beginsSignedDigit (s.dropWhile isCSpace) := by
  rw [← scanfICore_fst_isSome]
  rcases hs : scanfI s with ⟨o, r⟩
  have hs2 : scanfICore (s.dropWhile isCSpace) = (o, r) := hs
  cases o <;> simp [tiny_input, hs, hs2]

theorem tiny_input_ret_of_fail (s : List Char) (x0 : Int)
    (h : (tiny_input s x0).matched = false) : (tiny_input s x0).ret = x0 := by
  rcases hs : scanfI s with ⟨o, r⟩
  cases o <;> simp_all [tiny_input, hs]

theorem tiny_input_ret_of_match (s : List Char) (x0 : Int)
    (h : (tiny_input s x0).matched = true) :
    (scanfI s).1 = some ((tiny_input s x0).ret) := by
  rcases hs : scanfI s with ⟨o, r⟩
  cases o <;> simp_all [tiny_input, hs]

/-! ## White space on the front of the stream -/

theorem dropWhile_append_of_all {α} (p : α → Bool) (w t : List α)
    (h : ∀ c ∈ w, p c = true) : (w ++ t).dropWhile p = t.dropWhile p := by
  induction w with
  | nil => rfl
  | cons c w ih =>
    rw [List.cons_append, List.dropWhile_cons_of_pos (h c (by simp))]
    exact ih (fun c hc => h c (by simp [hc]))

theorem scanfI_append_ws (w t : List Char) (h : ∀ c ∈ w, isCSpace c = true) :
    scanfI (w ++ t) = scanfI t := by
  rw [scanfI, scanfI, dropWhile_append_of_all isCSpace w t h]

theorem tiny_input_append_ws (w t : List Char) (x0 : Int)
    (h : ∀ c ∈ w, isCSpace c = true) :
    tiny_input (w ++ t) x0 = tiny_input t x0 := by
  rw [tiny_input, tiny_input, scanfI_append_ws w t h]

/-! ## Claim theorems -/

/-- C1: for every signed 64-bit integer `x`, `tiny_print x` performs exactly
one write of the bytes `Output: `, then the base-10 rendering of `x` (a
leading minus sign exactly when `x` is negative, no leading zeros, no
padding, nothing but sign and digits), then a single newline — and nothing
else.  The rendering denotes `x`: standard base-10 parsing maps it back to
`some x`. -/
theorem tiny_print_exact_bytes (x : Int) (hlo : -(2 ^ 63) ≤ x) (hhi : x < 2 ^ 63) :
    ∃ body : List Char,
      tiny_print x = [Ev.write ("Output: " ++ String.mk body ++ "\n")] ∧
      decStrToInt (String.mk body) = some x ∧
      (x < 0 → ∃ ds, body = '-' :: ds ∧ ds ≠ [] ∧ (∀ c ∈ ds, c.isDigit = true) ∧
        ds.head? ≠ some '0') ∧
      (0 ≤ x → body ≠ [] ∧ (∀ c ∈ body, c.isDigit = true) ∧
        (body.head? = some '0' → x = 0)) := by
  have heta : String.mk (intDec x).data = intDec x := rfl
  refine ⟨(intDec x).data, ?_, ?_, ?_, ?_⟩
  · rw [heta]; rfl
  · rw [heta]; exact decStrToInt_intDec x
  · intro hx
    have hm : 1 ≤ x.natAbs := by omega
    have hdata : (intDec x).data = '-' :: natDigits x.natAbs := by
      simp [intDec, if_pos hx]
    exact ⟨natDigits x.natAbs, hdata, natDigits_ne_nil _, natDigits_all_digit _,
      natDigits_head_ne_zero _ hm⟩
  · intro hx
    have hdata : (intDec x).data = natDigits x.toNat := by
      simp [intDec, if_neg (by omega : ¬x < 0)]
    refine ⟨by rw [hdata]; exact natDigits_ne_nil _,
      by rw [hdata]; exact natDigits_all_digit _, ?_⟩
    intro h0
    by_contra hx0
    rw [hdata] at h0
    exact natDigits_head_ne_zero _ (by omega) h0

/-- Witness for C1 at the concrete input `-12`. -/
theorem tiny_print_exact_bytes_witness :
    ∃ body : List Char,
      tiny_print (-12) = [Ev.write ("Output: " ++ String.mk body ++ "\n")] ∧
      decStrToInt (String.mk body) = some (-12) ∧
      ((-12 : Int) < 0 → ∃ ds, body = '-' :: ds ∧ ds ≠ [] ∧
        (∀ c ∈ ds, c.isDigit = true) ∧ ds.head? ≠ some '0') ∧
      ((0 : Int) ≤ -12 → body ≠ [] ∧ (∀ c ∈ body, c.isDigit = true) ∧
        (body.head? = some '0' → (-12 : Int) = 0)) := by
  exact tiny_print_exact_bytes (-12) (by decide) (by decide)

/-- C6: the `<decimal-value>` part of the bytes `tiny_print` emits parses
back, under standard base-10 parsing, to the argument. -/
theorem tiny_print_decimal_roundtrip (x : Int) (_hlo : -(2 ^ 63) ≤ x)
    (_hhi : x < 2 ^ 63) :
    ∃ body : List Char,
      tiny_print_str x = "Output: " ++ String.mk body ++ "\n" ∧
      decStrToInt (String.mk body) = some x := by
  refine ⟨(intDec x).data, rfl, ?_⟩
  rw [show String.mk (intDec x).data = intDec x from rfl]
  exact decStrToInt_intDec x

/-- Witness for C6 at the concrete input `-7`. -/
theorem tiny_print_decimal_roundtrip_witness :
    ∃ body : List Char,
      tiny_print_str (-7) = "Output: " ++ String.mk body ++ "\n" ∧
      decStrToInt (String.mk body) = some (-7) := by
  exact tiny_print_decimal_roundtrip (-7) (by decide) (by decide)

/-- C2: on input stream `"42\n"` the call returns `42`, and the prompt
write (and its flush) occur in the trace before the single read attempt;
on input stream `"-7\n"` the call returns `-7`.  Either way the return
value does not depend on the indeterminate local `x0`. -/
theorem tiny_input_42_and_neg7 (x0 : Int) :
    (tiny_input ("42\n".data) x0).ret = 42 ∧
    (tiny_input ("42\n".data) x0).events =
      [Ev.write ("Input: "), Ev.flush, Ev.readAttempt true] ∧
    (tiny_input ("-7\n".data) x0).ret = -7 :=
  ⟨rfl, rfl, rfl⟩

/-- C4: every call writes the prompt `Input: ` and then flushes standard
output before its read attempt: the trace is always exactly the prompt
write, the flush, and then the one read. -/
theorem tiny_input_prompt_flush_before_read (s : List Char) (x0 : Int) :
    ∃ b : Bool, (tiny_input s x0).events =
      [Ev.write ("Input: "), Ev.flush, Ev.readAttempt b] := by
  rcases hs : scanfI s with ⟨o, r⟩
  cases o with
  | none => exact ⟨false, by simp [tiny_input, hs]⟩
  | some v => exact ⟨true, by simp [tiny_input, hs]⟩

/-- C5: `tiny_print` on the extreme signed 64-bit values emits the exact
literals, with no overflow or truncation. -/
theorem tiny_print_int64_extremes :
    tiny_print 9223372036854775807 =
      [Ev.write ("Output: 9223372036854775807\n")] ∧
    tiny_print (-9223372036854775808) =
      [Ev.write ("Output: -9223372036854775808\n")] := by
  exact ⟨rfl, rfl⟩

/-- C7: every call performs exactly one read attempt and writes the
prompt exactly once. -/
theorem tiny_input_one_read_one_prompt (s : List Char) (x0 : Int) :
    countReads (tiny_input s x0).events = 1 ∧
    countPromptWrites (tiny_input s x0).events = 1 := by
  rcases hs : scanfI s with ⟨o, r⟩
  cases o <;> simp only [tiny_input, hs] <;> exact ⟨rfl, rfl⟩

/-- C9: on an empty (or closed) input stream the call still returns, the
scan does not convert, and the value returned is the indeterminate
initial value `x0` of the local the failed scan never wrote. -/
theorem tiny_input_empty_returns_local (x0 : Int) :
    (tiny_input [] x0).ret = x0 ∧ (tiny_input [] x0).matched = false :=
  ⟨rfl, rfl⟩

/-- C10: any leading run of spaces, tabs and newlines on the input stream
does not change the returned value. -/
theorem tiny_input_skips_leading_ws (w t : List Char) (x0 : Int)
    (h : ∀ c ∈ w, c = ' ' ∨ c = '\t' ∨ c = '\n') :
    (tiny_input (w ++ t) x0).ret = (tiny_input t x0).ret := by
  have hall : ∀ c ∈ w, isCSpace c = true := by
    intro c hc
    rcases h c hc with h1 | h1 | h1 <;> subst h1 <;> rfl
  rw [tiny_input_append_ws w t x0 hall]

/-- Witness for C10: three whitespace characters before `"7"`. -/
theorem tiny_input_skips_leading_ws_witness :
    (tiny_input ([' ', '\t', '\n'] ++ ("7".data)) 0).ret =
      (tiny_input ("7".data) 0).ret := by
  exact tiny_input_skips_leading_ws [' ', '\t', '\n'] ("7".data) 0 (by decide)

/-- Counterexample to C3 as stated: on input `"12abc\n"` the next
whitespace-delimited token `12abc` is not a valid signed decimal integer,
yet the read does not fail — it converts the prefix `12` and returns 12.
Likewise the token `0x1f` is not a valid signed decimal integer, yet the
`%i` conversion reads it as hexadecimal 31. -/
theorem tiny_input_nondecimal_token_succeeds :
    nextToken ("12abc\n".data) ≠ [] ∧
    isValidSignedDec (nextToken ("12abc\n".data)) = false ∧
    (tiny_input ("12abc\n".data) 0).matched = true ∧
    (tiny_input ("12abc\n".data) 0).ret = 12 ∧
    isValidSignedDec (nextToken ("0x1f\n".data)) = false ∧
    (tiny_input ("0x1f\n".data) 0).matched = true ∧
    (tiny_input ("0x1f\n".data) 0).ret = 31 := by
  decide

/-- C3 (amended): the read fails exactly when, after skipping leading
white space, the stream is exhausted or does not begin with an optionally
signed digit; on success the returned value is the one the scan
converted, and on failure the returned value is just the indeterminate
prior value of the local. -/
theorem tiny_input_scan_failure_iff (s : List Char) (x0 : Int) :
    ((tiny_input s x0).matched = false ↔
      beginsSignedDigit (s.dropWhile isCSpace) = false) ∧
    ((tiny_input s x0).matched = false → (tiny_input s x0).ret = x0) ∧
    ((tiny_input s x0).matched = true →
      (scanfI s).1 = some ((tiny_input s x0).ret)) := by
  refine ⟨?_, tiny_input_ret_of_fail s x0, tiny_input_ret_of_match s x0⟩
  rw [tiny_input_matched]

/-- Witness for the amended C3 at the concrete stream `"zz"`. -/
theorem tiny_input_scan_failure_iff_witness :
    (tiny_input ("zz".data) 5).matched = false ∧
    (tiny_input ("zz".data) 5).ret = 5 := by
  have h := tiny_input_scan_failure_iff ("zz".data) 5
  have hm : (tiny_input ("zz".data) 5).matched = false := h.1.mpr (by decide)
  exact ⟨hm, h.2.1 hm⟩

/-- C8: the library keeps no state of its own.  Running a call against
any console state, the input stream is untouched by `tiny_print` and the
events a `tiny_print` call appends depend only on its argument; and when
two console states have the same unread input, `tiny_input` returns the
same value, leaves the same unread input, and appends the same events. -/
theorem runtime_library_stateless (w w2 : World) (x x0 : Int) :
    ((runPrint w x).stdin = w.stdin) ∧
    ((runPrint w x).outEvents.drop w.outEvents.length =
      (runPrint w2 x).outEvents.drop w2.outEvents.length) ∧
    (w.stdin = w2.stdin →
      (runInput w x0).2 = (runInput w2 x0).2 ∧
      (runInput w x0).1.stdin = (runInput w2 x0).1.stdin ∧
      (runInput w x0).1.outEvents.drop w.outEvents.length =
        (runInput w2 x0).1.outEvents.drop w2.outEvents.length) := by
  refine ⟨rfl, ?_, ?_⟩
  · simp [runPrint, List.drop_left]
  · intro h
    simp only [runInput]
    rw [h]
    simp [List.drop_left]

/-- Witness for C8: two console states with the same unread input
`"5\n"` but different past events. -/
theorem runtime_library_stateless_witness :
    (runInput ⟨"5\n".data, ([] : List Ev)⟩ 0).2 =
      (runInput ⟨"5\n".data, [Ev.flush]⟩ 0).2 ∧
    (runPrint ⟨"5\n".data, ([] : List Ev)⟩ 3).outEvents.drop
        ([] : List Ev).length =
      (runPrint ⟨"5\n".data, [Ev.flush]⟩ 3).outEvents.drop
        ([Ev.flush] : List Ev).length := by
  have h := runtime_library_stateless ⟨"5\n".data, []⟩ ⟨"5\n".data, [Ev.flush]⟩ 3 0
  exact ⟨(h.2.2 rfl).1, h.2.1⟩

end TinyFront
